import Mathlib

/- Verification of the platform-dispatch and batch-orchestration core of
   Media-dw (`src/main.py`).

   The embedding is shallow: Python strings become `String` / `List Char`,
   the regular expressions of `is_valid_url`, `detect_platform` and
   `extract_video_id` are compiled by hand into executable matchers with
   identical acceptance behaviour (existential semantics of backtracking),
   and the side-effecting pieces (yt-dlp, instaloader, the filesystem) are
   passed in as explicit `Except`-valued parameters or recorded as events
   in a trace.  Character classes are modelled on the ASCII fragment of
   Python's text operations; every pattern constant in the program is
   ASCII. -/

/-- ASCII fragment of Python `str.lower`, applied characterwise
    (`src/main.py` line 184 `url.lower()`). -/
def pyLowerChar (c : Char) : Char :=
  if c = 'A' then 'a'
  else if c = 'B' then 'b'
  else if c = 'C' then 'c'
  else if c = 'D' then 'd'
  else if c = 'E' then 'e'
  else if c = 'F' then 'f'
  else if c = 'G' then 'g'
  else if c = 'H' then 'h'
  else if c = 'I' then 'i'
  else if c = 'J' then 'j'
  else if c = 'K' then 'k'
  else if c = 'L' then 'l'
  else if c = 'M' then 'm'
  else if c = 'N' then 'n'
  else if c = 'O' then 'o'
  else if c = 'P' then 'p'
  else if c = 'Q' then 'q'
  else if c = 'R' then 'r'
  else if c = 'S' then 's'
  else if c = 'T' then 't'
  else if c = 'U' then 'u'
  else if c = 'V' then 'v'
  else if c = 'W' then 'w'
  else if c = 'X' then 'x'
  else if c = 'Y' then 'y'
  else if c = 'Z' then 'z'
  else c

/-- Python `str.lower` on a whole string (ASCII fragment). -/
def pyLower (s : String) : String :=
  String.mk (s.data.map pyLowerChar)

/-- Python's substring test `pat in hay`.  `re.search` of a regex that is a
    literal string (all the patterns of `detect_platform` are literals or
    alternations of literals, with `.` escaped) succeeds exactly on
    substring containment. -/
def pyContains : List Char → List Char → Bool
  | [], pat => pat.isEmpty
  | hay@(_ :: t), pat => pat.isPrefixOf hay || pyContains t pat

/-- Character class `[A-Za-z0-9_-]` used by the Instagram shortcode regex of
    `extract_video_id` (`src/main.py` line 151). -/
def isIdChar (c : Char) : Bool :=
  c.isAlpha || c.isDigit || c == '_' || c == '-'

/-- The ordered pattern table of `detect_platform` (`src/main.py` lines
    174-182).  Each regex value is an alternation of escaped literals, so it
    is modelled as the list of its literal alternatives.  Python dicts
    iterate in insertion order. -/
def platformPatterns : List (String × List String) :=
  [("youtube", ["youtube.com", "youtu.be"]),
   ("instagram", ["instagram.com"]),
   ("tiktok", ["tiktok.com"]),
   ("twitter", ["twitter.com", "x.com"]),
   ("facebook", ["facebook.com"]),
   ("reddit", ["reddit.com"]),
   ("twitch", ["twitch.tv"])]

/-- The `for platform, pattern in domain_patterns.items()` loop of
    `detect_platform`: first matching entry wins. -/
def detectLoop (l : List Char) : List (String × List String) → Option String
  | [] => none
  | (p, pats) :: rest =>
    if pats.any (fun pat => pyContains l pat.data) then some p else detectLoop l rest

/-- `detect_platform` (`src/main.py` lines 172-188): lowercases the whole
    URL and searches each pattern in order anywhere in it. -/
def detect_platform (url : String) : Option String :=
  detectLoop (url.data.map pyLowerChar) platformPatterns

/-- Python whitespace class (the complement of regex `\S`), ASCII part:
    space, tab, newline, vertical tab, form feed, carriage return. -/
def pyIsSpace (c : Char) : Bool :=
  c == ' ' || c == '\t' || c == '\n' || c == '\x0b' || c == '\x0c' || c == '\r'

/-- Character class `[A-Z0-9]` under `re.IGNORECASE` (ASCII letters and
    digits), used by the domain part of the `is_valid_url` regex. -/
def isAlnumA (c : Char) : Bool :=
  c.isAlpha || c.isDigit

/-- Recogniser for the literal `://` that follows the scheme in the
    `is_valid_url` regex. -/
def expectCSS : List Char → Option (List Char)
  | ':' :: '/' :: '/' :: r => some r
  | _ => none

/-- The anchored scheme part `^https?://` of the `is_valid_url` regex under
    `re.IGNORECASE`; returns the remainder of the string after the scheme.
    (Taking the optional `s` greedily is equivalent to backtracking here
    because an `s` can never begin `://`.) -/
def parseScheme (l : List Char) : Option (List Char) :=
  match l with
  | c1 :: c2 :: c3 :: c4 :: rest =>
    if pyLowerChar c1 = 'h' ∧ pyLowerChar c2 = 't' ∧ pyLowerChar c3 = 't' ∧ pyLowerChar c4 = 'p' then
      match rest with
      | c5 :: rest2 => if pyLowerChar c5 = 's' then expectCSS rest2 else expectCSS rest
      | [] => none
    else none
  | _ => none

/-- All ways to split a list into a front part and a remainder. -/
def splits : List Char → List (List Char × List Char)
  | [] => [([], [])]
  | a :: t => ([], a :: t) :: (splits t).map (fun p => (a :: p.1, p.2))

/-- One domain label `[A-Z0-9](?:[A-Z0-9-]{0,61}[A-Z0-9])?` of the
    `is_valid_url` regex (IGNORECASE): 1 to 63 characters, first and last
    alphanumeric, interior alphanumeric or hyphen. -/
def labelOK (cs : List Char) : Bool :=
  match cs with
  | [] => false
  | [c] => isAlnumA c
  | c :: rest =>
    isAlnumA c && rest.length ≤ 62 &&
      (rest.dropLast.all (fun d => isAlnumA d || d == '-')) &&
      (match rest.getLast? with
       | some d => isAlnumA d
       | none => false)

/-- Remainders after consuming one `label '.'` group. -/
def labelDotRems (l : List Char) : List (List Char) :=
  (splits l).filterMap (fun p =>
    match p.2 with
    | '.' :: suf => if labelOK p.1 then some suf else none
    | _ => none)

/-- Remainders after one or more `label '.'` groups (the `(...)+` of the
    domain alternative); each repetition consumes at least two characters,
    so fuel equal to the string length suffices. -/
def labelDotPlusAux : Nat → List Char → List (List Char)
  | 0, _ => []
  | fuel + 1, l => ((labelDotRems l).map (fun r => r :: labelDotPlusAux fuel r)).flatten

/-- Remainders after the top-level-domain part `[A-Z]{2,6}\.?`
    (IGNORECASE). -/
def tldRems (l : List Char) : List (List Char) :=
  (([2, 3, 4, 5, 6] : List Nat).filterMap (fun k =>
    if (l.take k).length = k ∧ (l.take k).all Char.isAlpha then some (l.drop k) else none)
  ).flatMap (fun r =>
    match r with
    | '.' :: r2 => [r, r2]
    | _ => [r])

/-- Remainders after the full domain alternative of the host. -/
def domainRems (l : List Char) : List (List Char) :=
  (labelDotPlusAux l.length l).flatMap tldRems

/-- Remainder after the literal `localhost` alternative (IGNORECASE). -/
def localhostRems (l : List Char) : List (List Char) :=
  if (l.take 9).map pyLowerChar = "localhost".data then [l.drop 9] else []

/-- Remainders after a digit run `\d{lo,hi}`. -/
def digitRunRems (l : List Char) (lo hi : Nat) : List (List Char) :=
  (List.range (hi + 1)).filterMap (fun k =>
    if lo ≤ k ∧ (l.take k).length = k ∧ (l.take k).all Char.isDigit then some (l.drop k) else none)

/-- Remainders after the IP alternative `\d{1,3}\.\d{1,3}\.\d{1,3}\.\d{1,3}`. -/
def ipRems (l : List Char) : List (List Char) :=
  (digitRunRems l 1 3).flatMap (fun r1 =>
    match r1 with
    | '.' :: r1' =>
      (digitRunRems r1' 1 3).flatMap (fun r2 =>
        match r2 with
        | '.' :: r2' =>
          (digitRunRems r2' 1 3).flatMap (fun r3 =>
            match r3 with
            | '.' :: r3' => digitRunRems r3' 1 3
            | _ => [])
        | _ => [])
    | _ => [])

/-- Remainders after the host alternation `(domain | localhost | ip)`. -/
def hostRems (l : List Char) : List (List Char) :=
  domainRems l ++ localhostRems l ++ ipRems l

/-- Remainders after the optional port `(?::\d+)?`. -/
def portRems (l : List Char) : List (List Char) :=
  l :: (match l with
        | ':' :: r =>
          (List.range r.length).filterMap (fun k =>
            if (r.take (k + 1)).length = k + 1 ∧ (r.take (k + 1)).all Char.isDigit
            then some (r.drop (k + 1)) else none)
        | _ => [])

/-- Python's `$` in `re.match`: matches at the end of the string or just
    before a single trailing newline. -/
def endOK : List Char → Bool
  | [] => true
  | ['\n'] => true
  | _ => false

/-- The path part `(?:/?|[/?]\S+)` of the `is_valid_url` regex followed by
    `$`. -/
def pathEndOK (l : List Char) : Bool :=
  endOK l
  || (match l with
      | '/' :: r => endOK r
      | _ => false)
  || (match l with
      | c :: r =>
        (c == '/' || c == '?') &&
          (List.range r.length).any (fun k =>
            (r.take (k + 1)).length = k + 1 &&
              (r.take (k + 1)).all (fun d => !pyIsSpace d) &&
              endOK (r.drop (k + 1)))
      | [] => false)

/-- `is_valid_url` (`src/main.py` lines 126-135): hand compilation of the
    anchored URL regex; a string is accepted iff some way of consuming
    scheme, host, optional port and path reaches an accepting end
    position. -/
def is_valid_url (s : String) : Bool :=
  match parseScheme s.data with
  | none => false
  | some r => (hostRems r).any (fun h => (portRems h).any pathEndOK)

/-- Case-insensitive test that a string begins with `http://` or
    `https://`, the scheme-prefix notion of the spec. -/
def startsWithScheme (s : String) : Bool :=
  ("http://".data).isPrefixOf (s.data.map pyLowerChar)
  || ("https://".data).isPrefixOf (s.data.map pyLowerChar)

/-- Model of `urllib.parse.urlparse` restricted to what `extract_video_id`
    reads (`.path` and `.query`) on URLs that carry a scheme separator, the
    only shape this program passes to it.  The fragment is cut at the first
    `#`, the netloc after `//` extends to the next `/` or `?`, the path to
    the next `?`, the query is the rest.  (The `;params` split of `urlparse`
    is omitted: no input considered here contains `;`.) -/
def pyUrlparse (url : List Char) : List Char × List Char :=
  let noFrag := url.takeWhile (fun c => c != '#')
  let afterScheme := (noFrag.dropWhile (fun c => c != ':')).drop 1
  let pq :=
    if ("//".data).isPrefixOf afterScheme then
      (afterScheme.drop 2).dropWhile (fun c => c != '/' && c != '?')
    else afterScheme
  (pq.takeWhile (fun c => c != '?'), (pq.dropWhile (fun c => c != '?')).drop 1)

/-- Split a query string at `&`, as `urllib.parse.parse_qs` does. -/
def pySplitAmp : List Char → List (List Char)
  | [] => [[]]
  | c :: t =>
    if c = '&' then [] :: pySplitAmp t
    else
      match pySplitAmp t with
      | [] => [[c]]
      | f :: rest => (c :: f) :: rest

/-- One `key=value` field of `parse_qs`: split at the first `=`; fields
    without `=` or with an empty value are dropped (default
    `keep_blank_values=False`).  Percent/plus decoding is omitted: the
    inputs considered here contain neither `%` nor `+`. -/
def qsPair (field : List Char) : Option (List Char × List Char) :=
  if pyContains field ['='] then
    let k := field.takeWhile (fun c => c != '=')
    let v := (field.dropWhile (fun c => c != '=')).drop 1
    if v.isEmpty then none else some (k, v)
  else none

/-- `parse_qs(query).get('v', [None])[0]`: the first value bound to key
    `v`, if any. -/
def parseQsV (query : List Char) : Option (List Char) :=
  (((pySplitAmp query).filterMap qsPair).filterMap
    (fun p => if p.1 = ['v'] then some p.2 else none)).head?

/-- Greedy nonempty capture of `good`-characters starting `n` characters
    into the list (the `(...)+` capture groups of `extract_video_id`). -/
def capAfter (good : Char → Bool) (n : Nat) (l : List Char) : Option (List Char) :=
  let cap := (l.drop n).takeWhile good
  if cap.isEmpty then none else some cap

/-- One attempt of the Instagram regex `/(p|reel|tv)/([A-Za-z0-9_-]+)` at
    the current position (at most one of the three markers can match, their
    second characters differ). -/
def tryInsta (l : List Char) : Option (List Char) :=
  if ("/p/".data).isPrefixOf l then capAfter isIdChar 3 l
  else if ("/reel/".data).isPrefixOf l then capAfter isIdChar 6 l
  else if ("/tv/".data).isPrefixOf l then capAfter isIdChar 4 l
  else none

/-- `re.search` of the Instagram pattern: leftmost position where the full
    pattern matches. -/
def searchInsta : List Char → Option (List Char)
  | [] => none
  | l@(_ :: t) => (tryInsta l).orElse (fun _ => searchInsta t)

/-- `re.search` of `marker(good+)` with a literal marker: leftmost position
    where the marker is followed by a nonempty run of `good` characters
    (used for `/video/(\d+)` and `/status/(\d+)`). -/
def searchAfter (marker : List Char) (good : Char → Bool) : List Char → Option (List Char)
  | [] => none
  | l@(_ :: t) =>
    (if marker.isPrefixOf l then capAfter good marker.length l else none).orElse
      (fun _ => searchAfter marker good t)

/-- `extract_video_id` (`src/main.py` lines 137-167).  The `try` wrapper of
    the original is dead for string inputs (`urlparse` and `re.search` do
    not raise on them), so the function is modelled as pure. -/
def extract_video_id (url : String) (platform : String) : Option (List Char) :=
  if platform = "youtube" then
    if pyContains url.data ("youtu.be".data) then some ((pyUrlparse url.data).1.drop 1)
    else if pyContains url.data ("youtube.com".data) then parseQsV (pyUrlparse url.data).2
    else none
  else if platform = "instagram" then searchInsta url.data
  else if platform = "tiktok" then searchAfter ("/video/".data) Char.isDigit url.data
  else if platform = "twitter" then searchAfter ("/status/".data) Char.isDigit url.data
  else none

/-- One download-attempt record of the History Store (`add_entry`,
    `src/main.py` lines 380-395).  The timestamp string is taken as given:
    the original reads the wall clock. -/
structure DownloadRecord where
  timestamp : String
  url : String
  platform : String
  success : Bool
  filename : Option String
deriving DecidableEq

/-- A Python exception value, abstracted to its description. -/
inductive PyExc where
  | mk (desc : String)
deriving DecidableEq

/-- The exception taxonomy of `download_instagram`'s two handlers:
    `instaloader.exceptions.InstaloaderException` and every other
    `Exception`. -/
inductive InstaExc where
  | instaloaderError (desc : String)
  | otherError (desc : String)
deriving DecidableEq

/-- The result object of `ydl.extract_info` as read by
    `download_with_ytdlp` (title, duration, filesize). -/
structure MediaInfo where
  title : String
  duration : Nat
  filesize : Option Nat
deriving DecidableEq

/-- `DownloadHistory.add_entry` (`src/main.py` lines 380-395) acting on the
    in-memory list: append the new record, then keep only the last 100
    (`self.history[-100:]`).  The subsequent `save_history` writes the whole
    list out and swallows failures; it does not change the list. -/
def add_entry (history : List DownloadRecord) (e : DownloadRecord) : List DownloadRecord :=
  let h := history ++ [e]
  if 100 < h.length then h.drop (h.length - 100) else h

/-- `DownloadHistory.load_history` (`src/main.py` lines 362-370).  The file
    system is passed in explicitly: `none` means the history file does not
    exist, `some (.error e)` that opening or `json.load` raised, and
    `some (.ok records)` that it parsed to a record list. -/
def load_history (file : Option (Except PyExc (List DownloadRecord))) : List DownloadRecord :=
  match file with
  | none => []
  | some (.error _) => []
  | some (.ok records) => records

/-- `download_with_ytdlp` (`src/main.py` lines 224-254).  Everything inside
    its `try` is abstracted into two capability outcomes: the folder
    creation (`create_platform_folder`, which can raise) and
    `ydl.extract_info` (which can raise or return `None`).  The single
    `except Exception` handler turns any raised exception into `False`;
    a truthy info object yields `True`, a `None` one `False`. -/
def download_with_ytdlp (mkdirResult : Except PyExc Unit)
    (extractResult : Except PyExc (Option MediaInfo)) : Bool :=
  match mkdirResult with
  | .error _ => false
  | .ok _ =>
    match extractResult with
    | .error _ => false
    | .ok none => false
    | .ok (some _) => true

/-- `download_instagram` (`src/main.py` lines 256-299): extract the
    shortcode with `extract_video_id`; on failure return `False`
    immediately; otherwise invoke the instaloader capability
    (`Post.from_shortcode` + `download_post`, abstracted as its outcome),
    whose exceptions are caught by the two handlers and mapped to
    `False`. -/
def download_instagram (url : String) (fetchResult : Except InstaExc String) : Bool :=
  match extract_video_id url "instagram" with
  | none => false
  | some _ =>
    match fetchResult with
    | .ok _ => true
    | .error (.instaloaderError _) => false
    | .error (.otherError _) => false

/-- Observable steps of the orchestration core, in program order: the two
    `continue`-skips of the batch loop, the two gateway invocations (the
    yt-dlp one records the quality argument it is called with), the
    inter-request sleep, and a History Store append. -/
inductive Event where
  | skipInvalid (url : String)
  | skipNoPlatform (url : String)
  | fetchYtdlp (url platform : String) (quality : Option String)
  | fetchInstagram (url : String)
  | delay
  | historyAppend (url platform : String) (success : Bool)
deriving DecidableEq

/-- Loop body of `download_from_file` for one URL (`src/main.py` lines
    317-343): invalid URLs and URLs with no resolvable platform `continue`
    (skipping the sleep); otherwise the platform routes to
    `download_instagram` or to `download_with_ytdlp(url, platform)` - with
    no quality argument - and, when the URL is not the last, a
    `time.sleep(Config.REQUEST_DELAY)` follows. -/
def batchStep (override : Option String) (u : String) (notLast : Bool) : List Event :=
  if is_valid_url u then
    match override.orElse (fun _ => detect_platform u) with
    | none => [Event.skipNoPlatform u]
    | some p =>
      (if p = "instagram" then [Event.fetchInstagram u] else [Event.fetchYtdlp u p none])
        ++ (if notLast then [Event.delay] else [])
  else [Event.skipInvalid u]

/-- The URL loop of `download_from_file` (`src/main.py` lines 304-350) over
    the list of nonempty stripped lines of the input file, as the trace of
    its observable steps.  The enumeration index `i` of the original only
    feeds the `i < len(urls)` sleep guard, which is exactly the
    is-not-last-element test. -/
def download_from_file (override : Option String) : List String → List Event
  | [] => []
  | [u] => batchStep override u false
  | u :: v :: rest => batchStep override u true ++ download_from_file override (v :: rest)

/-- Core of `MediaDownloaderApp.handle_single_download` (`src/main.py`
    lines 603-613) once URL and platform are fixed: the gateway is invoked
    with `self.quality_manager.get_quality()` and a history entry is
    appended regardless of the outcome. -/
def single_download (quality : String) (url platform : String) (fetchSuccess : Bool) :
    List Event :=
  (if platform = "instagram" then [Event.fetchInstagram url]
   else [Event.fetchYtdlp url platform (some quality)])
    ++ [Event.historyAppend url platform fetchSuccess]

/-- `QualityManager.quality_map` (`src/main.py` lines 534-541). -/
def quality_map : Nat → Option String
  | 1 => some "best"
  | 2 => some "1080p"
  | 3 => some "720p"
  | 4 => some "480p"
  | 5 => some "360p"
  | 6 => some "worst"
  | _ => none

/-- The effective `format` selector computed by `get_ydl_options`
    (`src/main.py` lines 193-222): `quality or Config.DEFAULT_QUALITY`,
    overridden for YouTube by a fixed height-capped selector. -/
def ydl_format (platform : String) (quality : Option String) : String :=
  if platform = "youtube" then "bestvideo[height<=1080]+bestaudio/best[height<=1080]"
  else quality.getD "best"

/-- Recogniser for History Store appends in a trace. -/
def isHistoryAppend : Event → Bool
  | .historyAppend _ _ _ => true
  | _ => false

/-- Recogniser for inter-request delays in a trace. -/
def isDelay : Event → Bool
  | .delay => true
  | _ => false

theorem pyLowerChar_idem (c : Char) : pyLowerChar (pyLowerChar c) = pyLowerChar c := by
  by_cases hA : c = 'A'
  · subst hA; decide
  by_cases hB : c = 'B'
  · subst hB; decide
  by_cases hC : c = 'C'
  · subst hC; decide
  by_cases hD : c = 'D'
  · subst hD; decide
  by_cases hE : c = 'E'
  · subst hE; decide
  by_cases hF : c = 'F'
  · subst hF; decide
  by_cases hG : c = 'G'
  · subst hG; decide
  by_cases hH : c = 'H'
  · subst hH; decide
  by_cases hI : c = 'I'
  · subst hI; decide
  by_cases hJ : c = 'J'
  · subst hJ; decide
  by_cases hK : c = 'K'
  · subst hK; decide
  by_cases hL : c = 'L'
  · subst hL; decide
  by_cases hM : c = 'M'
  · subst hM; decide
  by_cases hN : c = 'N'
  · subst hN; decide
  by_cases hO : c = 'O'
  · subst hO; decide
  by_cases hP : c = 'P'
  · subst hP; decide
  by_cases hQ : c = 'Q'
  · subst hQ; decide
  by_cases hR : c = 'R'
  · subst hR; decide
  by_cases hS : c = 'S'
  · subst hS; decide
  by_cases hT : c = 'T'
  · subst hT; decide
  by_cases hU : c = 'U'
  · subst hU; decide
  by_cases hV : c = 'V'
  · subst hV; decide
  by_cases hW : c = 'W'
  · subst hW; decide
  by_cases hX : c = 'X'
  · subst hX; decide
  by_cases hY : c = 'Y'
  · subst hY; decide
  by_cases hZ : c = 'Z'
  · subst hZ; decide
  have h : pyLowerChar c = c := by
    unfold pyLowerChar
    simp only [if_neg hA, if_neg hB, if_neg hC, if_neg hD, if_neg hE, if_neg hF, if_neg hG,
      if_neg hH, if_neg hI, if_neg hJ, if_neg hK, if_neg hL, if_neg hM, if_neg hN, if_neg hO,
      if_neg hP, if_neg hQ, if_neg hR, if_neg hS, if_neg hT, if_neg hU, if_neg hV, if_neg hW,
      if_neg hX, if_neg hY, if_neg hZ]
  rw [h, h]

theorem pyContains_iff (hay pat : List Char) : pyContains hay pat = true ↔ pat <:+: hay := by
  induction hay with
  | nil => simp [pyContains, List.isEmpty_iff, List.infix_nil]
  | cons a t ih =>
    show (pat.isPrefixOf (a :: t) || pyContains t pat) = true ↔ pat <:+: a :: t
    rw [ List.infix_cons_iff, Bool.or_eq_true, List.isPrefixOf_iff_prefix, ih]

theorem pyContains_of_infix {hay pat : List Char} (h : pat <:+: hay) :
    pyContains hay pat = true :=
  (pyContains_iff hay pat).mpr h

theorem pyContains_eq_false_of_mem {hay pat : List Char} {c : Char} (hc : c ∈ pat)
    (hn : c ∉ hay) : pyContains hay pat = false := by
  cases h : pyContains hay pat with
  | false => rfl
  | true => exact absurd (((pyContains_iff hay pat).mp h).subset hc) hn

theorem takeWhile_append_all (p : Char → Bool) (l₁ l₂ : List Char)
    (h : ∀ c ∈ l₁, p c = true) : (l₁ ++ l₂).takeWhile p = l₁ ++ l₂.takeWhile p := by
  induction l₁ with
  | nil => simp
  | cons a t ih =>
    rw [List.cons_append, List.takeWhile_cons, if_pos (h a (by simp)), List.cons_append,
      ih (fun c hc => h c (by simp [hc]))]

theorem takeWhile_all (p : Char → Bool) (l : List Char) (h : ∀ c ∈ l, p c = true) :
    l.takeWhile p = l := by
  have := takeWhile_append_all p l [] h
  simpa using this

theorem dropWhile_append_all (p : Char → Bool) (l₁ l₂ : List Char)
    (h : ∀ c ∈ l₁, p c = true) : (l₁ ++ l₂).dropWhile p = l₂.dropWhile p := by
  induction l₁ with
  | nil => simp
  | cons a t ih =>
    rw [List.cons_append, List.dropWhile_cons, if_pos (h a (by simp)),
      ih (fun c hc => h c (by simp [hc]))]

theorem dropWhile_all (p : Char → Bool) (l : List Char) (h : ∀ c ∈ l, p c = true) :
    l.dropWhile p = [] := by
  have := dropWhile_append_all p l [] h
  simpa using this

/-- C10: `detect_platform` lowercases its whole argument before testing the
    pattern table, and ASCII lowercasing is idempotent, so any URL
    classifies exactly like its lowercased form. -/
theorem c10_detect_platform_case_insensitive (url : String) :
    detect_platform url = detect_platform (pyLower url) := by
  unfold detect_platform pyLower
  have hcomp : pyLowerChar ∘ pyLowerChar = pyLowerChar := funext pyLowerChar_idem
  have key : (String.mk (url.data.map pyLowerChar)).data.map pyLowerChar =
      url.data.map pyLowerChar := by
    show (url.data.map pyLowerChar).map pyLowerChar = url.data.map pyLowerChar
    rw [List.map_map, hcomp]
  rw [key]

/-- C5: `add_entry` never leaves more than 100 records; appending to a full
    store of 100 drops exactly the oldest entry, keeps the order of the
    rest and puts the new record last; and 101 successive appends starting
    from an empty store leave exactly 100 records. -/
theorem c5_history_capped (h : List DownloadRecord) (r : DownloadRecord) :
    (add_entry h r).length ≤ 100 ∧
    (h.length = 100 → add_entry h r = h.drop 1 ++ [r]) ∧
    (∀ rs : List DownloadRecord, rs.length = 101 → (rs.foldl add_entry []).length = 100) := by
  have hlen : ∀ (h' : List DownloadRecord) (r' : DownloadRecord),
      (add_entry h' r').length = min (h'.length + 1) 100 := by
    intro h' r'
    show (if 100 < (h' ++ [r']).length then
            List.drop ((h' ++ [r']).length - 100) (h' ++ [r'])
          else h' ++ [r']).length = min (h'.length + 1) 100
    split
    · rename_i hgt
      rw [List.length_drop]
      simp only [List.length_append, List.length_singleton] at hgt ⊢
      omega
    · rename_i hle
      simp only [List.length_append, List.length_singleton] at hle ⊢
      omega
  refine ⟨by have := hlen h r; omega, ?_, ?_⟩
  · intro h100
    have hl : (h ++ [r]).length = 101 := by simp [h100]
    show (if 100 < (h ++ [r]).length then
            List.drop ((h ++ [r]).length - 100) (h ++ [r])
          else h ++ [r]) = h.drop 1 ++ [r]
    rw [if_pos (by omega), hl]
    show List.drop 1 (h ++ [r]) = List.drop 1 h ++ [r]
    have h1 : (1 : Nat) ≤ h.length := by omega
    exact List.drop_append_of_le_length h1
  · intro rs h101
    have hfold : ∀ (l : List DownloadRecord) (acc : List DownloadRecord), acc.length ≤ 100 →
        (l.foldl add_entry acc).length = min (acc.length + l.length) 100 := by
      intro l
      induction l with
      | nil => intro acc hacc; simp; omega
      | cons x xs ih =>
        intro acc hacc
        rw [List.foldl_cons, ih (add_entry acc x) (by have := hlen acc x; omega), hlen acc x]
        simp only [List.length_cons]
        omega
    rw [hfold rs [] (by simp), h101]
    rw [List.length_nil]
    decide

/-- Witness for C5 at a concrete store: a full store of 100 identical
    records, one new record, and a run of 101 appends. -/
theorem c5_history_capped_witness :
    add_entry (List.replicate 100 (DownloadRecord.mk "t0" "u0" "p0" true none))
        (DownloadRecord.mk "t1" "u1" "p1" false none) =
      (List.replicate 100 (DownloadRecord.mk "t0" "u0" "p0" true none)).drop 1 ++
        [DownloadRecord.mk "t1" "u1" "p1" false none] ∧
    ((List.replicate 101 (DownloadRecord.mk "t0" "u0" "p0" true none)).foldl add_entry
        []).length = 100 :=
  ⟨(c5_history_capped (List.replicate 100 (DownloadRecord.mk "t0" "u0" "p0" true none))
      (DownloadRecord.mk "t1" "u1" "p1" false none)).2.1 (by simp),
   (c5_history_capped [] (DownloadRecord.mk "t1" "u1" "p1" false none)).2.2
      (List.replicate 101 (DownloadRecord.mk "t0" "u0" "p0" true none)) (by simp)⟩

/-- C7: `load_history` is total and returns the parsed record list when the
    history file exists and parses, and the empty list when the file is
    missing or reading/parsing raises. -/
theorem c7_load_history_never_fails :
    load_history none = [] ∧
    (∀ e : PyExc, load_history (some (Except.error e)) = []) ∧
    (∀ records : List DownloadRecord, load_history (some (Except.ok records)) = records) :=
  ⟨rfl, fun _ => rfl, fun _ => rfl⟩

/-- C6: whatever exception the underlying capability raises, both gateway
    strategies return the failure outcome `false` instead of propagating:
    `download_with_ytdlp` under a raising `extract_info` (for any folder
    outcome), and `download_instagram` under a raising instaloader call
    (for any URL), each by their `except` handlers. -/
theorem c6_gateway_never_raises :
    (∀ (mkdirResult : Except PyExc Unit) (e : PyExc),
       download_with_ytdlp mkdirResult (Except.error e) = false) ∧
    (∀ (url : String) (e : InstaExc),
       download_instagram url (Except.error e) = false) := by
  constructor
  · intro m e
    cases m <;> rfl
  · intro url e
    unfold download_instagram
    cases extract_video_id url "instagram" <;> cases e <;> rfl

theorem batchStep_no_historyAppend (o : Option String) (u : String) (b : Bool) :
    (batchStep o u b).countP (fun e => isHistoryAppend e) = 0 := by
  unfold batchStep
  by_cases hv : is_valid_url u = true
  · rw [if_pos hv]
    cases ho : (Option.orElse o fun _ => detect_platform u) with
    | none => simp [List.countP_cons, isHistoryAppend]
    | some p =>
      by_cases hp : p = "instagram" <;> cases b <;>
        simp [hp, List.countP_append, List.countP_cons, isHistoryAppend]
  · rw [if_neg hv]
    simp [List.countP_cons, isHistoryAppend]

theorem download_from_file_no_historyAppend (o : Option String) (urls : List String) :
    (download_from_file o urls).countP (fun e => isHistoryAppend e) = 0 := by
  induction urls with
  | nil => rfl
  | cons u rest ih =>
    cases rest with
    | nil => exact batchStep_no_historyAppend o u false
    | cons v rest' =>
      show ((batchStep o u true) ++ download_from_file o (v :: rest')).countP _ = 0
      rw [List.countP_append, batchStep_no_historyAppend, ih]

/-- C1 (amended): the batch orchestrator `download_from_file` never appends
    to the History Store - its loop has no `add_entry` call, so a batch of
    any size yields zero history appends; only the single-download path
    appends, exactly once per attempt. -/
theorem c1_amended_batch_never_appends :
    (∀ (override : Option String) (urls : List String),
       (download_from_file override urls).countP (fun e => isHistoryAppend e) = 0) ∧
    (∀ (quality url platform : String) (success : Bool),
       (single_download quality url platform success).countP (fun e => isHistoryAppend e) = 1) := by
  constructor
  · exact download_from_file_no_historyAppend
  · intro q url p s
    unfold single_download
    by_cases hp : p = "instagram" <;>
      simp [hp, List.countP_append, List.countP_cons, isHistoryAppend]

/-- C1 counterexample: a batch of 3 valid, platform-detectable URLs
    produces 0 History Store appends, not the 3 the claim requires. -/
theorem c1_counterexample_three_urls_zero_appends :
    (download_from_file none
        ["https://youtu.be/a1", "https://www.tiktok.com/@u/video/1",
         "https://twitter.com/u/status/2"]).countP (fun e => isHistoryAppend e) = 0 ∧
    (0 : Nat) ≠ 3 := by
  constructor
  · decide
  · decide

theorem batchStep_delay_count (o : Option String) (u : String) (b : Bool) :
    (batchStep o u b).countP (fun e => isDelay e) =
      if (is_valid_url u && (Option.orElse o fun _ => detect_platform u).isSome) && b
      then 1 else 0 := by
  unfold batchStep
  by_cases hv : is_valid_url u = true
  · rw [if_pos hv]
    cases ho : (Option.orElse o fun _ => detect_platform u) with
    | none => simp [hv, ho, List.countP_cons, isDelay]
    | some p =>
      by_cases hp : p = "instagram" <;> cases b <;>
        simp [hv, ho, hp, List.countP_append, List.countP_cons, isDelay]
  · rw [if_neg hv]
    have hvf : is_valid_url u = false := by
      cases hvv : is_valid_url u
      · rfl
      · exact absurd hvv hv
    simp [hvf, List.countP_cons, isDelay]

theorem download_from_file_delay_count (o : Option String) (urls : List String) :
    (download_from_file o urls).countP (fun e => isDelay e) =
      urls.dropLast.countP
        (fun u => is_valid_url u && (Option.orElse o fun _ => detect_platform u).isSome) := by
  induction urls with
  | nil => rfl
  | cons u rest ih =>
    cases rest with
    | nil =>
      show (batchStep o u false).countP _ = _
      rw [batchStep_delay_count]
      simp
    | cons v rest' =>
      show ((batchStep o u true) ++ download_from_file o (v :: rest')).countP _ = _
      rw [List.countP_append, batchStep_delay_count, ih]
      rw [show (u :: v :: rest').dropLast = u :: (v :: rest').dropLast from rfl]
      rw [List.countP_cons]
      simp only [Bool.and_true]
      exact Nat.add_comm _ _

/-- C4 (amended): the inter-request delay follows each non-last URL that
    passes validation and platform resolution; URLs skipped by `continue`
    (invalid URL or undetectable platform) reach the next URL without any
    delay.  For the batch [A invalid, B valid/youtube, C valid/unknown]
    exactly one delay occurs, between B and C, and A's validation skip
    happens with no delay at all around it. -/
theorem c4_amended_delay_after_processed_urls :
    download_from_file none
        ["notaurl", "https://youtube.com/watch?v=B123", "https://example.org/file"] =
      [Event.skipInvalid "notaurl",
       Event.fetchYtdlp "https://youtube.com/watch?v=B123" "youtube" none,
       Event.delay,
       Event.skipNoPlatform "https://example.org/file"] ∧
    (∀ (o : Option String) (urls : List String),
       (download_from_file o urls).countP (fun e => isDelay e) =
         urls.dropLast.countP
           (fun u => is_valid_url u && (Option.orElse o fun _ => detect_platform u).isSome)) :=
  ⟨by decide, download_from_file_delay_count⟩

/-- C4 counterexample: in the batch [invalid, valid] the first URL is not
    the last, yet no delay ever occurs - the validation skip proceeds
    directly to the next URL, refuting the claim that a delay follows every
    non-last URL's processing. -/
theorem c4_counterexample_skip_has_no_delay :
    download_from_file none ["notaurl", "https://youtube.com/watch?v=xyz9"] =
      [Event.skipInvalid "notaurl",
       Event.fetchYtdlp "https://youtube.com/watch?v=xyz9" "youtube" none] ∧
    Event.delay ∉ download_from_file none ["notaurl", "https://youtube.com/watch?v=xyz9"] := by
  constructor
  · decide
  · decide

theorem batchStep_fetch_quality_none (o : Option String) (u : String) (b : Bool)
    (url p : String) (q : Option String)
    (h : Event.fetchYtdlp url p q ∈ batchStep o u b) : q = none := by
  unfold batchStep at h
  by_cases hv : is_valid_url u = true
  · rw [if_pos hv] at h
    cases ho : (Option.orElse o fun _ => detect_platform u) with
    | none =>
      rw [ho] at h
      simp at h
    | some pl =>
      rw [ho] at h
      rw [List.mem_append] at h
      rcases h with h | h
      · by_cases hp : pl = "instagram"
        · rw [if_pos hp] at h
          simp at h
        · rw [if_neg hp] at h
          simp at h
          exact h.2.2
      · cases b <;> simp at h
  · rw [if_neg hv] at h
    simp at h

theorem download_from_file_fetch_quality_none (o : Option String) (urls : List String)
    (url p : String) (q : Option String)
    (h : Event.fetchYtdlp url p q ∈ download_from_file o urls) : q = none := by
  induction urls with
  | nil => simp [download_from_file] at h
  | cons u rest ih =>
    cases rest with
    | nil => exact batchStep_fetch_quality_none o u false url p q h
    | cons v rest' =>
      rw [show download_from_file o (u :: v :: rest') =
            batchStep o u true ++ download_from_file o (v :: rest') from rfl,
          List.mem_append] at h
      rcases h with h | h
      · exact batchStep_fetch_quality_none o u true url p q h
      · exact ih h

/-- C2 (amended): the batch orchestrator always invokes the yt-dlp strategy
    with no quality argument (so `get_ydl_options` falls back to the fixed
    default "best", or YouTube's fixed override), ignoring the process-wide
    Quality selection; only the single-download path passes the current
    global quality to the gateway. -/
theorem c2_amended_batch_ignores_quality :
    (∀ (override : Option String) (urls : List String) (url p : String) (q : Option String),
       Event.fetchYtdlp url p q ∈ download_from_file override urls → q = none) ∧
    (∀ (quality url platform : String) (success : Bool), platform ≠ "instagram" →
       Event.fetchYtdlp url platform (some quality) ∈
         single_download quality url platform success) := by
  constructor
  · intro o urls url p q h
    exact download_from_file_fetch_quality_none o urls url p q h
  · intro quality url platform success hp
    unfold single_download
    rw [if_neg hp]
    simp

/-- Witness for C2 (amended) at concrete inputs: a one-URL TikTok batch
    whose fetch carries quality `none`, and a single download at global
    quality "720p" whose fetch carries `some "720p"`. -/
theorem c2_amended_witness :
    (none : Option String) = none ∧
    Event.fetchYtdlp "https://twitter.com/u/status/8" "twitter" (some "720p") ∈
      single_download "720p" "https://twitter.com/u/status/8" "twitter" true :=
  ⟨c2_amended_batch_ignores_quality.1 none ["https://www.tiktok.com/@u/video/5"]
      "https://www.tiktok.com/@u/video/5" "tiktok" none (by decide),
   c2_amended_batch_ignores_quality.2 "720p" "https://twitter.com/u/status/8" "twitter" true
      (by decide)⟩

/-- C2 counterexample: "720p" is a selectable global quality
    (`quality_map 3`), yet the batch fetch of a TikTok URL is invoked with
    quality `none`, which `get_ydl_options` resolves to the fixed default
    "best" - not the current global selection. -/
theorem c2_counterexample_batch_uses_default :
    quality_map 3 = some "720p" ∧
    Event.fetchYtdlp "https://www.tiktok.com/@u/video/77" "tiktok" none ∈
      download_from_file none ["https://www.tiktok.com/@u/video/77"] ∧
    (none : Option String) ≠ some "720p" ∧
    ydl_format "tiktok" none = "best" := by
  refine ⟨by decide, by decide, by decide, by decide⟩

theorem detectLoop_none (l : List Char) (ps : List (String × List String))
    (h : ∀ pair ∈ ps, ∀ pat ∈ pair.2, pyContains l pat.data = false) :
    detectLoop l ps = none := by
  induction ps with
  | nil => rfl
  | cons hd tl ih =>
    obtain ⟨p, pats⟩ := hd
    show (if pats.any (fun pat => pyContains l pat.data) then some p else detectLoop l tl) = none
    rw [if_neg, ih (fun pair hm => h pair (List.mem_cons_of_mem _ hm))]
    intro hc
    rw [List.any_eq_true] at hc
    obtain ⟨pat, hm, hpat⟩ := hc
    have hfalse := h (p, pats) (List.mem_cons_self _ _) pat hm
    rw [hfalse] at hpat
    exact Bool.noConfusion hpat

/-- C3 (amended): `detect_platform` searches the ordered pattern table
    against the entire lowercased URL, not only its host part.  Each
    canonical platform URL is classified as its platform, and a URL in
    which none of the seven patterns occurs anywhere is classified as
    none. -/
theorem c3_amended_detect_over_whole_url :
    detect_platform "https://www.youtube.com/watch?v=dQw4w9WgXcQ" = some "youtube" ∧
    detect_platform "https://www.instagram.com/p/Cxyz123/" = some "instagram" ∧
    detect_platform "https://www.tiktok.com/@user/video/7012345678901234567" = some "tiktok" ∧
    detect_platform "https://twitter.com/user/status/1234567890123456789" = some "twitter" ∧
    detect_platform "https://www.facebook.com/watch/?v=10153231379946729" = some "facebook" ∧
    detect_platform "https://www.reddit.com/r/videos/comments/abc123/title/" = some "reddit" ∧
    detect_platform "https://www.twitch.tv/somestreamer" = some "twitch" ∧
    (∀ url : String,
       (∀ pair ∈ platformPatterns, ∀ pat ∈ pair.2,
          pyContains (url.data.map pyLowerChar) pat.data = false) →
       detect_platform url = none) := by
  refine ⟨by decide, by decide, by decide, by decide, by decide, by decide, by decide, ?_⟩
  intro url h
  exact detectLoop_none _ _ h

/-- Witness for C3 (amended) at a concrete unrelated URL in which no
    pattern occurs. -/
theorem c3_amended_witness :
    detect_platform "https://someothersite.org/page" = none :=
  c3_amended_detect_over_whole_url.2.2.2.2.2.2.2 "https://someothersite.org/page" (by decide)

/-- C3 counterexample: the domain `example.com` is unrelated to all seven
    platforms, but the pattern table matches `youtube.com` inside the path,
    so `detect_platform` returns youtube instead of the none the claim
    requires - it does not test only the host part. -/
theorem c3_counterexample_path_match :
    detect_platform "https://example.com/youtube.com" = some "youtube" ∧
    detect_platform "https://example.com/youtube.com" ≠ none := by
  refine ⟨by decide, by decide⟩

theorem expectCSS_some (m r : List Char) (h : expectCSS m = some r) :
    m = ':' :: '/' :: '/' :: r := by
  unfold expectCSS at h
  split at h
  · injection h with h'
    rw [h']
  · exact Option.noConfusion h

theorem parseScheme_some (l r : List Char) (h : parseScheme l = some r) :
    (("http://".data).isPrefixOf (l.map pyLowerChar)
      || ("https://".data).isPrefixOf (l.map pyLowerChar)) = true := by
  unfold parseScheme at h
  cases l with
  | nil => exact Option.noConfusion h
  | cons c1 l1 =>
    cases l1 with
    | nil => exact Option.noConfusion h
    | cons c2 l2 =>
      cases l2 with
      | nil => exact Option.noConfusion h
      | cons c3 l3 =>
        cases l3 with
        | nil => exact Option.noConfusion h
        | cons c4 rest =>
          dsimp only at h
          by_cases hc : pyLowerChar c1 = 'h' ∧ pyLowerChar c2 = 't' ∧
              pyLowerChar c3 = 't' ∧ pyLowerChar c4 = 'p'
          · rw [if_pos hc] at h
            obtain ⟨h1, h2, h3, h4⟩ := hc
            cases rest with
            | nil => exact Option.noConfusion h
            | cons c5 rest2 =>
              dsimp only at h
              by_cases hs : pyLowerChar c5 = 's'
              · rw [if_pos hs] at h
                have hm := expectCSS_some _ _ h
                subst hm
                simp [List.isPrefixOf, h1, h2, h3, h4, hs,
                  show pyLowerChar ':' = ':' from by decide,
                  show pyLowerChar '/' = '/' from by decide]
              · rw [if_neg hs] at h
                have hm := expectCSS_some _ _ h
                injection hm with hc5 hrest
                subst hc5
                subst hrest
                simp [List.isPrefixOf, h1, h2, h3, h4,
                  show pyLowerChar ':' = ':' from by decide,
                  show pyLowerChar '/' = '/' from by decide]
          · rw [if_neg hc] at h
            exact Option.noConfusion h

/-- C8: every string that does not begin (case-insensitively) with an
    `http://` or `https://` scheme is rejected by `is_valid_url`: the URL
    regex is anchored on `^https?://`. -/
theorem c8_no_scheme_invalid (s : String) (h : startsWithScheme s = false) :
    is_valid_url s = false := by
  cases hv : is_valid_url s with
  | false => rfl
  | true =>
    exfalso
    unfold is_valid_url at hv
    cases hp : parseScheme s.data with
    | none =>
      rw [hp] at hv
      simp at hv
    | some r =>
      have htrue := parseScheme_some s.data r hp
      unfold startsWithScheme at h
      rw [htrue] at h
      exact Bool.noConfusion h

/-- Witness for C8 at the concrete schemeless string used by the batch
    scenario. -/
theorem c8_no_scheme_invalid_witness :
    startsWithScheme "nonurltext" = false ∧ is_valid_url "nonurltext" = false :=
  ⟨by decide, c8_no_scheme_invalid "nonurltext" (by decide)⟩

theorem infix_append_split {pat l₁ l₂ : List Char} (h : pat <:+: l₁ ++ l₂) :
    pat <:+: l₁ ∨ pat <:+: l₂ ∨
      ∃ k, 0 < k ∧ k < pat.length ∧ pat.take k <:+ l₁ ∧ pat.drop k <+: l₂ := by
  obtain ⟨s, t, hst⟩ := h
  have hl1 : l₁ = (s ++ pat ++ t).take l₁.length := by
    rw [hst]
    simp
  have hl2 : l₂ = (s ++ pat ++ t).drop l₁.length := by
    rw [hst]
    simp
  by_cases h1 : s.length + pat.length ≤ l₁.length
  · left
    have e1 : (s ++ pat ++ t).take l₁.length =
        (s ++ pat) ++ t.take (l₁.length - (s ++ pat).length) := by
      rw [List.take_append_eq_append_take,
        List.take_of_length_le (by rw [List.length_append]; omega)]
    rw [e1] at hl1
    exact ⟨s, t.take (l₁.length - (s ++ pat).length), hl1.symm⟩
  · by_cases h2 : l₁.length ≤ s.length
    · right; left
      have e2 : (s ++ pat ++ t).drop l₁.length = (s.drop l₁.length ++ pat) ++ t := by
        rw [List.drop_append_eq_append_drop, List.drop_append_eq_append_drop,
          show l₁.length - s.length = 0 from by omega, List.drop_zero,
          show l₁.length - (s ++ pat).length = 0 from by rw [List.length_append]; omega,
          List.drop_zero]
      rw [e2] at hl2
      exact ⟨s.drop l₁.length, t, hl2.symm⟩
    · right; right
      have e1 : (s ++ pat ++ t).take l₁.length =
          s ++ pat.take (l₁.length - s.length) := by
        rw [List.take_append_eq_append_take, List.take_append_eq_append_take,
          List.take_of_length_le (show s.length ≤ l₁.length from by omega),
          show l₁.length - (s ++ pat).length = 0 from by rw [List.length_append]; omega,
          List.take_zero, List.append_nil]
      have e2 : (s ++ pat ++ t).drop l₁.length = pat.drop (l₁.length - s.length) ++ t := by
        rw [List.drop_append_eq_append_drop, List.drop_append_eq_append_drop,
          List.drop_eq_nil_of_le (show s.length ≤ l₁.length from by omega),
          show l₁.length - (s ++ pat).length = 0 from by rw [List.length_append]; omega,
          List.drop_zero, List.nil_append]
      rw [e1] at hl1
      rw [e2] at hl2
      exact ⟨l₁.length - s.length, by omega, by omega, ⟨s, hl1.symm⟩, ⟨t, hl2.symm⟩⟩

theorem isIdChar_not_special (c : Char) (h : isIdChar c = true) :
    c ≠ '#' ∧ c ≠ ':' ∧ c ≠ '?' ∧ c ≠ '/' ∧ c ≠ '&' ∧ c ≠ '=' ∧ c ≠ '.' := by
  refine ⟨?_, ?_, ?_, ?_, ?_, ?_, ?_⟩ <;> (intro he; subst he; revert h; decide)

theorem isDigit_isIdChar (c : Char) (h : c.isDigit = true) : isIdChar c = true := by
  simp [isIdChar, h]

theorem list_isEmpty_false (l : List Char) (h : l ≠ []) : l.isEmpty = false := by
  cases l with
  | nil => exact absurd rfl h
  | cons a t => rfl

theorem pySplitAmp_no_amp (l : List Char) (h : ∀ c ∈ l, c ≠ '&') : pySplitAmp l = [l] := by
  induction l with
  | nil => rfl
  | cons c t ih =>
    show (if c = '&' then [] :: pySplitAmp t else
      match pySplitAmp t with
      | [] => [[c]]
      | f :: rest => (c :: f) :: rest) = [c :: t]
    rw [if_neg (h c (List.mem_cons_self c t)), ih (fun d hd => h d (List.mem_cons_of_mem c hd))]

theorem qsPair_v (id : List Char) (hne : id ≠ []) (hid : ∀ c ∈ id, isIdChar c = true) :
    qsPair ('v' :: '=' :: id) = some (['v'], id) := by
  have h1 : pyContains ('v' :: '=' :: id) ['='] = true := pyContains_of_infix ⟨['v'], id, rfl⟩
  have h2 : ('v' :: '=' :: id).takeWhile (fun c => c != '=') = ['v'] := by simp
  have h3 : ('v' :: '=' :: id).dropWhile (fun c => c != '=') = '=' :: id := by simp
  have h4 : id.isEmpty = false := list_isEmpty_false id hne
  simp [qsPair, h1, h2, h3, h4]

theorem parseQsV_v (id : List Char) (hne : id ≠ []) (hid : ∀ c ∈ id, isIdChar c = true) :
    parseQsV ('v' :: '=' :: id) = some id := by
  have hs : pySplitAmp ('v' :: '=' :: id) = [('v' :: '=' :: id)] := by
    refine pySplitAmp_no_amp _ ?_
    intro c hc
    rcases List.mem_cons.mp hc with h | hc2
    · subst h; decide
    rcases List.mem_cons.mp hc2 with h | hc3
    · subst h; decide
    · exact (isIdChar_not_special c (hid c hc3)).2.2.2.2.1
  simp [parseQsV, hs, List.filterMap_cons, qsPair_v id hne hid]

theorem searchAfter_cons_no (marker : List Char) (good : Char → Bool) (c : Char) (t : List Char)
    (h : marker.isPrefixOf (c :: t) = false) :
    searchAfter marker good (c :: t) = searchAfter marker good t := by
  simp only [searchAfter, h, Bool.false_eq_true, if_false, Option.orElse]

theorem searchAfter_hit (marker : List Char) (good : Char → Bool) (mc : Char) (mt id : List Char)
    (hmarker : marker = mc :: mt) (hne : id ≠ []) (hcap : ∀ c ∈ id, good c = true) :
    searchAfter marker good (marker ++ id) = some id := by
  subst hmarker
  have hdrop : (mc :: (mt ++ id)).drop (mc :: mt).length = id := by
    have := List.drop_left (mc :: mt) id
    simpa using this
  simp only [List.cons_append, searchAfter]
  rw [if_pos (List.isPrefixOf_iff_prefix.mpr ⟨id, by simp⟩)]
  simp [capAfter, hdrop, takeWhile_all good id hcap, list_isEmpty_false id hne, Option.orElse]

theorem searchInsta_cons_no (c : Char) (t : List Char) (h : tryInsta (c :: t) = none) :
    searchInsta (c :: t) = searchInsta t := by
  simp only [searchInsta, h, Option.orElse]

theorem searchInsta_hit (id : List Char) (hne : id ≠ []) (hcap : ∀ c ∈ id, isIdChar c = true) :
    searchInsta ("/p/".data ++ id) = some id := by
  have ht : tryInsta ('/' :: 'p' :: '/' :: id) = some id := by
    unfold tryInsta
    rw [if_pos (List.isPrefixOf_iff_prefix.mpr ⟨id, by simp⟩)]
    simp [capAfter, takeWhile_all isIdChar id hcap, list_isEmpty_false id hne]
  show searchInsta ('/' :: 'p' :: '/' :: id) = some id
  simp only [searchInsta, ht, Option.orElse]

theorem pyContains_watch_no_youtu_be (id : List Char) (hid : ∀ c ∈ id, isIdChar c = true) :
    pyContains ("https://youtube.com/watch?v=".data ++ id) ("youtu.be".data) = false := by
  cases h : pyContains ("https://youtube.com/watch?v=".data ++ id) ("youtu.be".data) with
  | false => rfl
  | true =>
    exfalso
    have hinf := (pyContains_iff _ _).mp h
    rcases infix_append_split hinf with h1 | h2 | ⟨k, hk0, hkl, hsuf, _⟩
    · exact absurd h1 (by decide)
    · have hdot : '.' ∈ id := h2.subset (by decide)
      exact (isIdChar_not_special '.' (hid '.' hdot)).2.2.2.2.2.2 rfl
    · have hdec : ∀ k, k < ("youtu.be".data).length → 0 < k →
          ¬ (("youtu.be".data).take k <:+ "https://youtube.com/watch?v=".data) := by decide
      exact hdec k hkl hk0 hsuf

theorem pyUrlparse_youtu_be (id : List Char) (hid : ∀ c ∈ id, isIdChar c = true) :
    pyUrlparse ("https://youtu.be/".data ++ id) = ('/' :: id, []) := by
  have hhash : ∀ c ∈ id, (c != '#') = true := fun c hc => by
    rw [bne_iff_ne]
    exact (isIdChar_not_special c (hid c hc)).1
  have hfrag : ("https://youtu.be/".data ++ id).takeWhile (fun c => c != '#') =
      "https://youtu.be/".data ++ id := by
    rw [takeWhile_append_all _ _ _ (by decide), takeWhile_all _ _ hhash]
  have hdrop : ("https://youtu.be/".data ++ id).dropWhile (fun c => c != ':') =
      ':' :: ("//youtu.be/".data ++ id) := by
    rw [show "https://youtu.be/".data ++ id =
          "https".data ++ (':' :: ("//youtu.be/".data ++ id)) from rfl,
        dropWhile_append_all _ _ _ (by decide), List.dropWhile_cons]
    simp
  have hnet : ("youtu.be/".data ++ id).dropWhile (fun c => c != '/' && c != '?') =
      '/' :: id := by
    rw [show "youtu.be/".data ++ id = "youtu.be".data ++ ('/' :: id) from rfl,
        dropWhile_append_all _ _ _ (by decide), List.dropWhile_cons]
    simp
  have hq : ∀ c ∈ '/' :: id, (c != '?') = true := by
    intro c hc
    rcases List.mem_cons.mp hc with h | h
    · subst h; decide
    · rw [bne_iff_ne]
      exact (isIdChar_not_special c (hid c h)).2.2.1
  simp only [pyUrlparse]
  rw [hfrag, hdrop]
  rw [show (':' :: ("//youtu.be/".data ++ id)).drop 1 = "//youtu.be/".data ++ id from rfl]
  rw [if_pos (show (['/', '/'].isPrefixOf ("//youtu.be/".data ++ id)) = true from
        List.isPrefixOf_iff_prefix.mpr ⟨"youtu.be/".data ++ id, rfl⟩)]
  rw [show ("//youtu.be/".data ++ id).drop 2 = "youtu.be/".data ++ id from rfl]
  rw [hnet]
  rw [takeWhile_all _ _ hq, dropWhile_all _ _ hq]
  rfl

theorem pyUrlparse_watch (id : List Char) (hid : ∀ c ∈ id, isIdChar c = true) :
    pyUrlparse ("https://youtube.com/watch?v=".data ++ id) =
      ("/watch".data, 'v' :: '=' :: id) := by
  have hhash : ∀ c ∈ id, (c != '#') = true := fun c hc => by
    rw [bne_iff_ne]
    exact (isIdChar_not_special c (hid c hc)).1
  have hfrag : ("https://youtube.com/watch?v=".data ++ id).takeWhile (fun c => c != '#') =
      "https://youtube.com/watch?v=".data ++ id := by
    rw [takeWhile_append_all _ _ _ (by decide), takeWhile_all _ _ hhash]
  have hdrop : ("https://youtube.com/watch?v=".data ++ id).dropWhile (fun c => c != ':') =
      ':' :: ("//youtube.com/watch?v=".data ++ id) := by
    rw [show "https://youtube.com/watch?v=".data ++ id =
          "https".data ++ (':' :: ("//youtube.com/watch?v=".data ++ id)) from rfl,
        dropWhile_append_all _ _ _ (by decide), List.dropWhile_cons]
    simp
  have hnet : ("youtube.com/watch?v=".data ++ id).dropWhile (fun c => c != '/' && c != '?') =
      "/watch?v=".data ++ id := by
    rw [show "youtube.com/watch?v=".data ++ id =
          "youtube.com".data ++ ("/watch?v=".data ++ id) from rfl,
        dropWhile_append_all _ _ _ (by decide)]
    rw [show "/watch?v=".data ++ id = '/' :: ("watch?v=".data ++ id) from rfl,
        List.dropWhile_cons]
    simp
  have htake : ("/watch?v=".data ++ id).takeWhile (fun c => c != '?') = "/watch".data := by
    rw [show "/watch?v=".data ++ id =
          "/watch".data ++ ('?' :: ("v=".data ++ id)) from rfl,
        takeWhile_append_all _ _ _ (by decide), List.takeWhile_cons]
    simp
  have hdropq : (("/watch?v=".data ++ id).dropWhile (fun c => c != '?')).drop 1 =
      'v' :: '=' :: id := by
    rw [show "/watch?v=".data ++ id =
          "/watch".data ++ ('?' :: ("v=".data ++ id)) from rfl,
        dropWhile_append_all _ _ _ (by decide), List.dropWhile_cons]
    simp
  simp only [pyUrlparse]
  rw [hfrag, hdrop]
  rw [show (':' :: ("//youtube.com/watch?v=".data ++ id)).drop 1 =
        "//youtube.com/watch?v=".data ++ id from rfl]
  rw [if_pos (show (['/', '/'].isPrefixOf ("//youtube.com/watch?v=".data ++ id)) = true from
        List.isPrefixOf_iff_prefix.mpr ⟨"youtube.com/watch?v=".data ++ id, rfl⟩)]
  rw [show ("//youtube.com/watch?v=".data ++ id).drop 2 =
        "youtube.com/watch?v=".data ++ id from rfl]
  rw [hnet, htake, hdropq]

theorem extract_youtu_be_roundtrip (id : List Char) (hne : id ≠ [])
    (hid : ∀ c ∈ id, isIdChar c = true) :
    extract_video_id (String.mk ("https://youtu.be/".data ++ id)) "youtube" = some id := by
  have hc : pyContains ("https://youtu.be/".data ++ id) ("youtu.be".data) = true :=
    pyContains_of_infix ⟨"https://".data, '/' :: id, rfl⟩
  unfold extract_video_id
  rw [if_pos rfl]
  dsimp only
  rw [hc, if_pos rfl, pyUrlparse_youtu_be id hid]
  rfl

theorem extract_watch_roundtrip (id : List Char) (hne : id ≠ [])
    (hid : ∀ c ∈ id, isIdChar c = true) :
    extract_video_id (String.mk ("https://youtube.com/watch?v=".data ++ id)) "youtube" =
      some id := by
  have hn := pyContains_watch_no_youtu_be id hid
  have hc : pyContains ("https://youtube.com/watch?v=".data ++ id) ("youtube.com".data) = true :=
    pyContains_of_infix ⟨"https://".data, "/watch?v=".data ++ id, rfl⟩
  unfold extract_video_id
  rw [if_pos rfl]
  dsimp only
  rw [hn, if_neg (by simp), hc, if_pos rfl, pyUrlparse_watch id hid]
  exact parseQsV_v id hne hid

theorem extract_instagram_roundtrip (id : List Char) (hne : id ≠ [])
    (hid : ∀ c ∈ id, isIdChar c = true) :
    extract_video_id (String.mk ("https://instagram.com/p/".data ++ id)) "instagram" =
      some id := by
  have hhit : searchInsta ('/' :: 'p' :: '/' :: id) = some id := searchInsta_hit id hne hid
  unfold extract_video_id
  rw [if_neg (by decide), if_pos rfl]
  show searchInsta ("https://instagram.com/p/".data ++ id) = some id
  simp [searchInsta_cons_no, tryInsta, List.isPrefixOf, capAfter, hhit]

theorem extract_tiktok_roundtrip (id : List Char) (hne : id ≠ [])
    (hid : ∀ c ∈ id, c.isDigit = true) :
    extract_video_id (String.mk ("https://tiktok.com/video/".data ++ id)) "tiktok" = some id := by
  have hhit : searchAfter ('/' :: 'v' :: 'i' :: 'd' :: 'e' :: 'o' :: '/' ::[]) Char.isDigit
      ('/' :: 'v' :: 'i' :: 'd' :: 'e' :: 'o' :: '/' ::id) = some id :=
    searchAfter_hit ("/video/".data) Char.isDigit '/' ("video/".data) id rfl hne hid
  unfold extract_video_id
  rw [if_neg (by decide), if_neg (by decide), if_pos rfl]
  show searchAfter ("/video/".data) Char.isDigit ("https://tiktok.com/video/".data ++ id) =
    some id
  simp [searchAfter_cons_no, List.isPrefixOf, hhit]

theorem extract_twitter_roundtrip (id : List Char) (hne : id ≠ [])
    (hid : ∀ c ∈ id, c.isDigit = true) :
    extract_video_id (String.mk ("https://twitter.com/u/status/".data ++ id)) "twitter" =
      some id := by
  have hhit : searchAfter ('/' :: 's' :: 't' :: 'a' :: 't' :: 'u' :: 's' :: '/' ::[]) Char.isDigit
      ('/' :: 's' :: 't' :: 'a' :: 't' :: 'u' :: 's' :: '/' ::id) = some id :=
    searchAfter_hit ("/status/".data) Char.isDigit '/' ("status/".data) id rfl hne hid
  unfold extract_video_id
  rw [if_neg (by decide), if_neg (by decide), if_neg (by decide), if_pos rfl]
  show searchAfter ("/status/".data) Char.isDigit ("https://twitter.com/u/status/".data ++ id) =
    some id
  simp [searchAfter_cons_no, List.isPrefixOf, hhit]

/-- C9: `extract_video_id` round-trips for each handled platform pattern:
    for every well-formed id (nonempty, over the platform's id alphabet
    `[A-Za-z0-9_-]`, digits only for tiktok/twitter), building the
    canonical URL and extracting again returns exactly that id - for
    youtube via both the `youtu.be/<id>` path and the
    `youtube.com/watch?v=<id>` query forms, for instagram via `/p/<id>`,
    for tiktok via `/video/<digits>`, for twitter via `/status/<digits>`. -/
theorem c9_extract_video_id_roundtrip :
    (∀ id : List Char, id ≠ [] → (∀ c ∈ id, isIdChar c = true) →
       extract_video_id (String.mk ("https://youtu.be/".data ++ id)) "youtube" = some id) ∧
    (∀ id : List Char, id ≠ [] → (∀ c ∈ id, isIdChar c = true) →
       extract_video_id (String.mk ("https://youtube.com/watch?v=".data ++ id)) "youtube" =
         some id) ∧
    (∀ id : List Char, id ≠ [] → (∀ c ∈ id, isIdChar c = true) →
       extract_video_id (String.mk ("https://instagram.com/p/".data ++ id)) "instagram" =
         some id) ∧
    (∀ id : List Char, id ≠ [] → (∀ c ∈ id, c.isDigit = true) →
       extract_video_id (String.mk ("https://tiktok.com/video/".data ++ id)) "tiktok" =
         some id) ∧
    (∀ id : List Char, id ≠ [] → (∀ c ∈ id, c.isDigit = true) →
       extract_video_id (String.mk ("https://twitter.com/u/status/".data ++ id)) "twitter" =
         some id) :=
  ⟨extract_youtu_be_roundtrip, extract_watch_roundtrip, extract_instagram_roundtrip,
   extract_tiktok_roundtrip, extract_twitter_roundtrip⟩

/-- Witness for C9 at concrete well-formed ids, one per pattern. -/
theorem c9_extract_video_id_roundtrip_witness :
    extract_video_id (String.mk ("https://youtu.be/".data ++ "dQw4w9WgXcQ".data)) "youtube" =
      some ("dQw4w9WgXcQ".data) ∧
    extract_video_id (String.mk ("https://youtube.com/watch?v=".data ++ "dQw4w9WgXcQ".data))
        "youtube" = some ("dQw4w9WgXcQ".data) ∧
    extract_video_id (String.mk ("https://instagram.com/p/".data ++ "Cxy_z-12".data))
        "instagram" = some ("Cxy_z-12".data) ∧
    extract_video_id (String.mk ("https://tiktok.com/video/".data ++ "7012345".data))
        "tiktok" = some ("7012345".data) ∧
    extract_video_id (String.mk ("https://twitter.com/u/status/".data ++ "998877".data))
        "twitter" = some ("998877".data) :=
  ⟨c9_extract_video_id_roundtrip.1 _ (by decide) (by decide),
   c9_extract_video_id_roundtrip.2.1 _ (by decide) (by decide),
   c9_extract_video_id_roundtrip.2.2.1 _ (by decide) (by decide),
   c9_extract_video_id_roundtrip.2.2.2.1 _ (by decide) (by decide),
   c9_extract_video_id_roundtrip.2.2.2.2 _ (by decide) (by decide)⟩
